import Mathlib

/-!
# Verification of the ZenTXT editor (src/main.py)

A shallow embedding of the pure content of `src/main.py`, a small PyQt5
tabbed plain-text editor, together with theorems settling the spec's
claims about it.

Conventions of the embedding:
* Text is modelled as `List Char`; file contents as the list of characters
  the file decodes to.
* Qt font metrics (the pixel advance of the character `'9'`) are an input
  parameter `digitWidth` of the gutter-width computation, since they come
  from the host toolkit.
* Python `int` arithmetic on nonnegative quantities is `Nat`; Qt pixel
  coordinates, which may be negative, are `Int`.
* Fallible I/O is modelled with `Except`: the outcome of the underlying
  `read`/`write` call is an explicit argument, and the embedding of each
  method maps it to the method's outcome, mirroring the absence of any
  `try`/`except` in the source.
-/

/-! ## CodeEditor.lineNumberAreaWidth (src/main.py lines 44-51) -/

/-- The `while max_block_count >= 10: max_block_count //= 10; digits += 1`
loop of `lineNumberAreaWidth`, started at accumulator `d`. -/
def digitCountLoop (m d : Nat) : Nat :=
  if m ≥ 10 then digitCountLoop (m / 10) (d + 1) else d
termination_by m
decreasing_by exact Nat.div_lt_self (by omega) (by omega)

/-- `CodeEditor.lineNumberAreaWidth`: `digits = 1`, then the division loop
on `max(1, blockCount)`, then `space = 3 + horizontalAdvance('9') * digits`.
`digitWidth` is the font metric `horizontalAdvance('9')`. -/
def lineNumberAreaWidth (blockCount digitWidth : Nat) : Nat :=
  3 + digitWidth * digitCountLoop (max 1 blockCount) 1

/-- Python's `len(str(N))` for a nonnegative integer `N`: the length of the
decimal string representation. -/
def lenStr (n : Nat) : Nat :=
  (Nat.repr n).length

/-! ### Digit-count lemmas -/

theorem digitCountLoop_eq_digits (m d : Nat) (hm : 1 ≤ m) :
    digitCountLoop m d + 1 = d + (Nat.digits 10 m).length := by
  induction m using Nat.strong_induction_on generalizing d with
  | _ m ih =>
    rw [digitCountLoop]
    by_cases h : m ≥ 10
    · simp only [h, if_true]
      have hdiv : 1 ≤ m / 10 := Nat.one_le_div_iff (by omega) |>.mpr (by omega)
      have hlt : m / 10 < m := Nat.div_lt_self (by omega) (by omega)
      rw [ih (m / 10) hlt (d + 1) hdiv]
      rw [Nat.digits_def' (by omega : 1 < 10) (by omega : 0 < m)]
      simp [List.length_cons]
      omega
    · simp only [h, if_false]
      have hm10 : m < 10 := by omega
      rw [Nat.digits_def' (by omega : 1 < 10) (by omega : 0 < m)]
      have : m / 10 = 0 := Nat.div_eq_of_lt hm10
      rw [this]
      simp

theorem digitCountLoop_one (m : Nat) (hm : 1 ≤ m) :
    digitCountLoop m 1 = (Nat.digits 10 m).length := by
  have h := digitCountLoop_eq_digits m 1 hm
  omega

/-- With enough fuel, the length of `Nat.toDigitsCore 10 f n acc` is the
number of decimal digits of `n` plus the accumulator length. -/
theorem toDigitsCore_length_eq (f : Nat) :
    ∀ n acc, 0 < n → n < f →
      (Nat.toDigitsCore 10 f n acc).length = (Nat.digits 10 n).length + acc.length := by
  induction f with
  | zero => intro n acc _ h; omega
  | succ f ih =>
    intro n acc hn hf
    rw [Nat.toDigitsCore]
    by_cases h : n / 10 = 0
    · simp only [h, if_true]
      have hlt : n < 10 := by
        by_contra hc
        have : 1 ≤ n / 10 := Nat.one_le_div_iff (by omega) |>.mpr (by omega)
        omega
      rw [Nat.digits_def' (by omega : 1 < 10) hn, h]
      simp
      omega
    · simp only [h, if_false]
      have hdivpos : 0 < n / 10 := Nat.pos_of_ne_zero h
      have hge : 10 ≤ n := by
        by_contra hc
        exact h (Nat.div_eq_of_lt (by omega))
      have hdivlt : n / 10 < f := by
        have : n / 10 < n := Nat.div_lt_self (by omega) (by omega)
        omega
      rw [ih (n / 10) (Nat.digitChar (n % 10) :: acc) hdivpos hdivlt]
      rw [Nat.digits_def' (by omega : 1 < 10) hn]
      simp [List.length_cons]
      omega

/-- `len(str(N))` is the decimal digit count for positive `N`. -/
theorem lenStr_eq_digits_len (n : Nat) (hn : 0 < n) :
    lenStr n = (Nat.digits 10 n).length := by
  unfold lenStr
  show (Nat.toDigits 10 n).asString.length = (Nat.digits 10 n).length
  rw [String.length, List.asString]
  show (Nat.toDigitsCore 10 (n + 1) n []).length = (Nat.digits 10 n).length
  rw [toDigitsCore_length_eq (n + 1) n [] hn (by omega)]
  simp

/-- C1: for every block count `N ≥ 1` the gutter's minimum pixel width is
the fixed margin `3` plus the pixel width of one digit times the digit
count of `N`, where the digit count equals `len(str(N))`; in particular
for `N` in `{1, 9, 10, 99, 100}` the digit count is `1, 1, 2, 2, 3`. -/
theorem gutter_width_margin_plus_digits (N digitWidth : Nat) (h : 1 ≤ N) :
    lineNumberAreaWidth N digitWidth = 3 + digitWidth * lenStr N ∧
    lenStr 1 = 1 ∧ lenStr 9 = 1 ∧ lenStr 10 = 2 ∧ lenStr 99 = 2 ∧ lenStr 100 = 3 := by
  refine ⟨?_, rfl, rfl, rfl, rfl, rfl⟩
  unfold lineNumberAreaWidth
  rw [Nat.max_eq_right h, digitCountLoop_one N h, lenStr_eq_digits_len N h]

/-- Witness for C1 at `N = 100`, `digitWidth = 7`. -/
theorem gutter_width_margin_plus_digits_witness :
    lineNumberAreaWidth 100 7 = 3 + 7 * lenStr 100 :=
  (gutter_width_margin_plus_digits 100 7 (by omega)).1

/-- C5: at block count `0` the computation behaves as if the highest line
number were `1`: the digit count used is `1`, and the width is exactly
(hence at least) the margin plus one digit width. -/
theorem gutter_width_zero_blocks (digitWidth : Nat) :
    lineNumberAreaWidth 0 digitWidth = lineNumberAreaWidth 1 digitWidth ∧
    lineNumberAreaWidth 0 digitWidth = 3 + digitWidth * 1 ∧
    3 + digitWidth * 1 ≤ lineNumberAreaWidth 0 digitWidth := by
  have h1 : digitCountLoop 1 1 = 1 := by rw [digitCountLoop]; simp
  have h0 : lineNumberAreaWidth 0 digitWidth = 3 + digitWidth * 1 := by
    unfold lineNumberAreaWidth
    simp [h1]
  have h1' : lineNumberAreaWidth 1 digitWidth = 3 + digitWidth * 1 := by
    unfold lineNumberAreaWidth
    simp [h1]
  exact ⟨by rw [h0, h1'], h0, by omega⟩

/-- C6: the gutter width is monotonically non-decreasing in the block
count, for a fixed digit width. -/
theorem gutter_width_monotone (digitWidth N1 N2 : Nat) (h : N1 ≤ N2) :
    lineNumberAreaWidth N1 digitWidth ≤ lineNumberAreaWidth N2 digitWidth := by
  unfold lineNumberAreaWidth
  have hmax : max 1 N1 ≤ max 1 N2 := by omega
  have h1 : 1 ≤ max 1 N1 := by omega
  have h2 : 1 ≤ max 1 N2 := by omega
  rw [digitCountLoop_one _ h1, digitCountLoop_one _ h2]
  have hlen := Nat.le_digits_len_le 10 (max 1 N1) (max 1 N2) hmax
  exact Nat.add_le_add_left (Nat.mul_le_mul_left digitWidth hlen) 3

/-- Witness for C6 at `N1 = 9`, `N2 = 100`, `digitWidth = 7`. -/
theorem gutter_width_monotone_witness :
    lineNumberAreaWidth 9 7 ≤ lineNumberAreaWidth 100 7 :=
  gutter_width_monotone 7 9 100 (by omega)

/-! ## File open/save (src/main.py lines 161-173 and 192-195)

`open_file` reads the chosen file with Python's `open(file_path, 'r')` in
text mode, which performs universal-newline translation on the decoded
stream; the resulting string becomes the new editor's buffer via
`setPlainText`. `_save_to_path` writes the buffer with
`open(file_path, 'w')`; on a POSIX host (`os.linesep = '\n'`) the write
translation is the identity. -/

/-- Python universal-newline translation performed by text-mode reads:
each `"\r\n"` pair and each lone `'\r'` becomes `'\n'`. -/
def univNewlines : List Char → List Char
  | [] => []
  | '\r' :: '\n' :: rest => '\n' :: univNewlines rest
  | '\r' :: rest => '\n' :: univNewlines rest
  | c :: rest => c :: univNewlines rest

/-- The buffer produced by `open_file` from a file's decoded characters:
the text-mode read result passed to `setPlainText`. -/
def open_file_buffer (raw : List Char) : List Char :=
  univNewlines raw

/-- The characters `_save_to_path` writes from a buffer on a POSIX host:
`file.write(current_editor.toPlainText())` writes the buffer unchanged. -/
def save_to_path_content (buffer : List Char) : List Char :=
  buffer

/-- Opening a file and immediately saving without edits: the saved content
as a function of the original content. -/
def openThenSave (raw : List Char) : List Char :=
  save_to_path_content (open_file_buffer raw)

/-- C2 counterexample: a file containing a CRLF line ending is not written
back byte-identically — the text-mode read already normalized it. -/
theorem open_save_not_identity_crlf :
    openThenSave ['a', '\r', '\n', 'b'] ≠ ['a', '\r', '\n', 'b'] := by
  decide

theorem univNewlines_cons_ne (c : Char) (rest : List Char) (hc : c ≠ '\r') :
    univNewlines (c :: rest) = c :: univNewlines rest := by
  rw [univNewlines.eq_def]
  split <;> simp_all

theorem univNewlines_cr_cons (rest : List Char) (h : ∀ r, rest ≠ '\n' :: r) :
    univNewlines ('\r' :: rest) = '\n' :: univNewlines rest := by
  rw [univNewlines.eq_def]
  split <;> simp_all
  rename_i hne heq
  exact absurd heq.1.symm hne

/-- The translated stream never contains a carriage return: every CR of
the input was replaced, and copied characters are CR-free. -/
theorem cr_not_mem_univNewlines (raw : List Char) : '\r' ∉ univNewlines raw := by
  induction raw using univNewlines.induct with
  | case1 => simp [univNewlines]
  | case2 rest ih =>
    rw [show univNewlines ('\r' :: '\n' :: rest) = '\n' :: univNewlines rest from rfl]
    simp only [List.mem_cons]
    rintro (h | h)
    · exact absurd h (by decide)
    · exact ih h
  | case3 rest h1 ih =>
    rw [univNewlines_cr_cons rest (fun r hr => h1 r hr)]
    simp only [List.mem_cons]
    rintro (h | h)
    · exact absurd h (by decide)
    · exact ih h
  | case4 c rest h1 h2 ih =>
    rw [univNewlines_cons_ne c rest (fun hc => h2 hc)]
    simp only [List.mem_cons]
    rintro (h | h)
    · exact h2 h.symm
    · exact ih h

theorem univNewlines_eq_self_of_no_cr (raw : List Char) (h : '\r' ∉ raw) :
    univNewlines raw = raw := by
  induction raw with
  | nil => rfl
  | cons c rest ih =>
    have hc : c ≠ '\r' := by
      intro hcr
      exact h (hcr ▸ List.mem_cons_self c rest)
    have hrest : '\r' ∉ rest := fun hm => h (List.mem_cons_of_mem c hm)
    rw [univNewlines_cons_ne c rest hc, ih hrest]

/-- C2 (amended): on an LF-linesep host, opening then immediately saving
writes back the universal-newline normalization of the content, and the
round trip is byte-identical if and only if the file contains no
carriage-return character. -/
theorem open_save_identity_iff_no_cr (raw : List Char) :
    openThenSave raw = univNewlines raw ∧
    (openThenSave raw = raw ↔ '\r' ∉ raw) := by
  refine ⟨rfl, ?_, ?_⟩
  · intro h hmem
    have hout := cr_not_mem_univNewlines raw
    unfold openThenSave save_to_path_content open_file_buffer at h
    rw [h] at hout
    exact hout hmem
  · intro h
    show openThenSave raw = raw
    unfold openThenSave save_to_path_content open_file_buffer
    exact univNewlines_eq_self_of_no_cr raw h

/-- Witness for C2 (amended), exercising both directions of the
equivalence on concrete contents. -/
theorem open_save_identity_iff_no_cr_witness :
    openThenSave ['a', '\n', 'b'] = ['a', '\n', 'b'] ∧
    openThenSave ['a', '\r', 'b'] ≠ ['a', '\r', 'b'] :=
  ⟨(open_save_identity_iff_no_cr ['a', '\n', 'b']).2.mpr (by decide),
   fun h => (open_save_identity_iff_no_cr ['a', '\r', 'b']).2.mp h (by decide)⟩

/-! ## CodeEditor.keyPressEvent (src/main.py lines 37-42) -/

/-- A key event's key: the Tab key, or any other key identified by its
Qt key code. -/
inductive QtKey where
  | key_Tab : QtKey
  | other : Nat → QtKey
deriving DecidableEq

/-- The text surface around its cursor: the characters before the cursor,
the characters after it, and Qt's read-only flag. -/
structure EditorSurface where
  beforeCursor : List Char
  afterCursor : List Char
  readOnly : Bool
deriving DecidableEq

/-- The whole buffer text of a surface. -/
def bufferText (st : EditorSurface) : List Char :=
  st.beforeCursor ++ st.afterCursor

/-- The string literal `"    "` inserted by the Tab branch. -/
def fourSpaces : List Char :=
  [' ', ' ', ' ', ' ']

/-- Outcome of `keyPressEvent`: the surface afterwards, and whether the
event reached the default handler (`super().keyPressEvent(event)`). -/
structure KeyPressOutcome where
  surface : EditorSurface
  reachedDefaultHandler : Bool
deriving DecidableEq

/-- `CodeEditor.keyPressEvent`: on `Qt.Key_Tab`, `cursor.insertText("    ")`
and an early `return`; the read-only flag is never consulted, and
`QTextCursor.insertText` writes to the document regardless of it. Any
other key falls through to the default handler. -/
def keyPressEvent (st : EditorSurface) (key : QtKey) : KeyPressOutcome :=
  match key with
  | QtKey.key_Tab =>
      { surface := { st with beforeCursor := st.beforeCursor ++ fourSpaces },
        reachedDefaultHandler := false }
  | QtKey.other _ =>
      { surface := st, reachedDefaultHandler := true }

/-- C3: a Tab press inserts exactly the four-character run of literal
spaces at the cursor (text after the cursor untouched), that run contains
no native tab character, and the event is not propagated to the default
handler. -/
theorem tab_inserts_four_spaces (st : EditorSurface) :
    (keyPressEvent st QtKey.key_Tab).surface.beforeCursor
        = st.beforeCursor ++ fourSpaces ∧
    (keyPressEvent st QtKey.key_Tab).surface.afterCursor = st.afterCursor ∧
    fourSpaces.length = 4 ∧
    (∀ c ∈ fourSpaces, c = ' ') ∧
    '\t' ∉ fourSpaces ∧
    (keyPressEvent st QtKey.key_Tab).reachedDefaultHandler = false := by
  refine ⟨rfl, rfl, rfl, ?_, by decide, rfl⟩
  intro c hc
  simp only [fourSpaces, List.mem_cons, List.not_mem_nil, or_false] at hc
  rcases hc with h | h | h | h <;> exact h

/-- Witness for C3 on a concrete surface. -/
theorem tab_inserts_four_spaces_witness :
    (keyPressEvent ⟨['x'], ['y'], false⟩ QtKey.key_Tab).surface.beforeCursor
      = ['x'] ++ fourSpaces :=
  (tab_inserts_four_spaces ⟨['x'], ['y'], false⟩).1

/-- C10: the Tab branch never consults the read-only flag, so on a
read-only surface a Tab press still writes the four spaces through the
text cursor and changes the buffer. -/
theorem tab_writes_even_when_read_only (st : EditorSurface)
    (h : st.readOnly = true) :
    (keyPressEvent st QtKey.key_Tab).surface.beforeCursor
        = st.beforeCursor ++ fourSpaces ∧
    bufferText (keyPressEvent st QtKey.key_Tab).surface ≠ bufferText st := by
  refine ⟨rfl, ?_⟩
  intro heq
  have hlen := congrArg List.length heq
  simp [bufferText, keyPressEvent, fourSpaces] at hlen
  omega

/-- Witness for C10 on a concrete read-only surface. -/
theorem tab_writes_even_when_read_only_witness :
    bufferText (keyPressEvent ⟨['x'], [], true⟩ QtKey.key_Tab).surface
      ≠ bufferText ⟨['x'], [], true⟩ :=
  (tab_writes_even_when_read_only ⟨['x'], [], true⟩ rfl).2

/-! ## CodeEditor.highlightCurrentLine (src/main.py lines 91-103) -/

/-- One `QTextEdit.ExtraSelection` as built by `highlightCurrentLine`:
the cursor it carries (selection cleared, so only a position) and the
full-width-selection property. -/
structure ExtraSelection where
  cursorPos : Nat
  fullWidth : Bool
deriving DecidableEq

/-- The state `highlightCurrentLine` reads and writes: the read-only flag,
the current cursor position, and the extra selections installed on the
editor. -/
structure HighlightState where
  readOnly : Bool
  cursorPos : Nat
  extraSelections : List ExtraSelection
deriving DecidableEq

/-- `CodeEditor.highlightCurrentLine`: start from an empty list, append
one full-width selection at the current cursor when the surface is not
read-only, and install the list with `setExtraSelections`, replacing
whatever was installed before. -/
def highlightCurrentLine (st : HighlightState) : HighlightState :=
  let extra_selections : List ExtraSelection :=
    if ¬ st.readOnly then [{ cursorPos := st.cursorPos, fullWidth := true }] else []
  { st with extraSelections := extra_selections }

/-- C4: after any call the installed extra selections hold at most one
current-line highlight, none when the surface is read-only, and the
result replaces any previously installed selections (it does not depend
on them). -/
theorem highlight_at_most_one (st : HighlightState) :
    (highlightCurrentLine st).extraSelections.length ≤ 1 ∧
    (st.readOnly = true → (highlightCurrentLine st).extraSelections = []) ∧
    (∀ prev, (highlightCurrentLine { st with extraSelections := prev }).extraSelections
      = (highlightCurrentLine st).extraSelections) := by
  refine ⟨?_, ?_, fun prev => rfl⟩
  · unfold highlightCurrentLine
    by_cases h : st.readOnly <;> simp [h]
  · intro h
    unfold highlightCurrentLine
    simp [h]

/-- Witness for C4 on a concrete read-only state. -/
theorem highlight_at_most_one_witness :
    (highlightCurrentLine ⟨true, 5, [⟨0, true⟩]⟩).extraSelections = [] :=
  (highlight_at_most_one ⟨true, 5, [⟨0, true⟩]⟩).2.1 rfl

/-! ## CodeEditor.updateLineNumberArea (src/main.py lines 56-63) -/

/-- A Qt rectangle, as the update-event rectangle: origin and size. -/
structure QRectModel where
  x : Int
  y : Int
  w : Int
  h : Int
deriving DecidableEq

/-- The operation applied to the gutter widget by `updateLineNumberArea`:
either `scroll(dx, dy)` of its cached rendering, or `update(x, y, w, h)`
marking a rectangle dirty for repaint. -/
inductive GutterOp where
  | scroll : Int → Int → GutterOp
  | markDirty : Int → Int → Int → Int → GutterOp
deriving DecidableEq

/-- Outcome of `updateLineNumberArea`: the gutter operation performed and
whether the viewport margins were recomputed (the trailing
`if rect.contains(self.viewport().rect())` branch). -/
structure ViewportUpdateOutcome where
  gutterOp : GutterOp
  marginsRecomputed : Bool
deriving DecidableEq

/-- `CodeEditor.updateLineNumberArea(rect, dy)`: `if dy:` (Python truth,
i.e. `dy ≠ 0`) scroll the gutter by `(0, dy)`; otherwise
`update(0, rect.y(), width, rect.height())` over the full gutter width.
`gutterWidth` is `self.lineNumberArea.width()` and `containsViewport` is
the toolkit-evaluated `rect.contains(self.viewport().rect())`. -/
def updateLineNumberArea (gutterWidth : Int) (containsViewport : Bool)
    (rect : QRectModel) (dy : Int) : ViewportUpdateOutcome :=
  { gutterOp :=
      if dy ≠ 0 then GutterOp.scroll 0 dy
      else GutterOp.markDirty 0 rect.y gutterWidth rect.h,
    marginsRecomputed := containsViewport }

/-- C7: a pure vertical delta (`dy ≠ 0`) shifts the gutter's cached
rendering by exactly `dy`; otherwise only the event rectangle's vertical
extent, at full gutter width, is marked dirty. -/
theorem viewport_update_dispatch (gutterWidth : Int) (containsViewport : Bool)
    (rect : QRectModel) (dy : Int) :
    (dy ≠ 0 → (updateLineNumberArea gutterWidth containsViewport rect dy).gutterOp
        = GutterOp.scroll 0 dy) ∧
    (dy = 0 → (updateLineNumberArea gutterWidth containsViewport rect dy).gutterOp
        = GutterOp.markDirty 0 rect.y gutterWidth rect.h) := by
  constructor
  · intro h
    simp [updateLineNumberArea, h]
  · intro h
    simp [updateLineNumberArea, h]

/-- Witness for C7 in both branches on concrete inputs. -/
theorem viewport_update_dispatch_witness :
    (updateLineNumberArea 40 false ⟨0, 2, 10, 20⟩ 3).gutterOp = GutterOp.scroll 0 3 ∧
    (updateLineNumberArea 40 false ⟨0, 2, 10, 20⟩ 0).gutterOp
      = GutterOp.markDirty 0 2 40 20 :=
  ⟨(viewport_update_dispatch 40 false ⟨0, 2, 10, 20⟩ 3).1 (by decide),
   (viewport_update_dispatch 40 false ⟨0, 2, 10, 20⟩ 0).2 rfl⟩

/-! ## MainWindow tabs: open_file, _save_to_path, close_tab
(src/main.py lines 161-173, 192-195, 201-202) -/

/-- One tab of the `QTabWidget`: its editor's buffer content, its
editor's `file_path` attribute, and its tab label. -/
structure EditorTab where
  content : List Char
  file_path : Option (List Char)
  label : List Char
deriving DecidableEq

/-- `os.path.basename` on a POSIX path: everything after the last `'/'`. -/
def basename (p : List Char) : List Char :=
  (p.reverse.takeWhile (fun c => c ≠ '/')).reverse

/-- `MainWindow.close_tab(index)`: `self.tab_widget.removeTab(index)`,
which removes the tab at `index` and leaves the rest in order. -/
def close_tab (tabs : List EditorTab) (index : Nat) : List EditorTab :=
  tabs.eraseIdx index

theorem eraseIdx_length (l : List EditorTab) (i : Nat) (h : i < l.length) :
    (l.eraseIdx i).length + 1 = l.length := by
  induction l generalizing i with
  | nil => simp at h
  | cons c t ih =>
    cases i with
    | zero => simp [List.eraseIdx]
    | succ n =>
      simp only [List.eraseIdx, List.length_cons]
      rw [ih n (by simpa using h)]

theorem eraseIdx_get?_lt (l : List EditorTab) (i j : Nat) (h : j < i) :
    (l.eraseIdx i).get? j = l.get? j := by
  induction l generalizing i j with
  | nil => simp [List.eraseIdx]
  | cons c t ih =>
    cases i with
    | zero => omega
    | succ n =>
      cases j with
      | zero => simp [List.eraseIdx]
      | succ k =>
        simp only [List.eraseIdx, List.get?]
        exact ih n k (by omega)

theorem eraseIdx_get?_ge (l : List EditorTab) (i j : Nat) (h : i ≤ j) :
    (l.eraseIdx i).get? j = l.get? (j + 1) := by
  induction l generalizing i j with
  | nil => simp [List.eraseIdx]
  | cons c t ih =>
    cases i with
    | zero => simp [List.eraseIdx]
    | succ n =>
      cases j with
      | zero => omega
      | succ k =>
        simp only [List.eraseIdx, List.get?]
        exact ih n k (by omega)

/-- C8: closing the tab at a valid index removes exactly that one tab:
the count drops by one, tabs before the index are untouched, and every
later tab moves down by one position with its content, path and label
unchanged. -/
theorem close_tab_removes_exactly_one (tabs : List EditorTab) (i : Nat)
    (h : i < tabs.length) :
    (close_tab tabs i).length + 1 = tabs.length ∧
    (∀ j, j < i → (close_tab tabs i).get? j = tabs.get? j) ∧
    (∀ j, i ≤ j → (close_tab tabs i).get? j = tabs.get? (j + 1)) :=
  ⟨eraseIdx_length tabs i h,
   fun j hj => eraseIdx_get?_lt tabs i j hj,
   fun j hj => eraseIdx_get?_ge tabs i j hj⟩

/-- Witness for C8 on a three-tab collection, closing index 1. -/
theorem close_tab_removes_exactly_one_witness :
    (close_tab [⟨['a'], none, ['U']⟩, ⟨['b'], none, ['V']⟩, ⟨['c'], none, ['W']⟩] 1).length + 1 = 3 ∧
    (close_tab [⟨['a'], none, ['U']⟩, ⟨['b'], none, ['V']⟩, ⟨['c'], none, ['W']⟩] 1).get? 0
      = some ⟨['a'], none, ['U']⟩ ∧
    (close_tab [⟨['a'], none, ['U']⟩, ⟨['b'], none, ['V']⟩, ⟨['c'], none, ['W']⟩] 1).get? 1
      = some ⟨['c'], none, ['W']⟩ := by
  have h := close_tab_removes_exactly_one
    [⟨['a'], none, ['U']⟩, ⟨['b'], none, ['V']⟩, ⟨['c'], none, ['W']⟩] 1 (by decide)
  exact ⟨h.1, by rw [h.2.1 0 (by decide)]; rfl, by rw [h.2.2 1 (by decide)]; rfl⟩

/-! ## Error propagation in open_file and _save_to_path -/

/-- `MainWindow.open_file` after a file path was chosen, as a function of
the outcome of the underlying `open`/`read` call: no `try`/`except`
surrounds it, so a raised error is the whole method's outcome; on success
the decoded text becomes a new tab appended after the existing ones. -/
def open_file_result (readOutcome : Except String (List Char))
    (tabs : List EditorTab) (path : List Char) : Except String (List EditorTab) :=
  match readOutcome with
  | Except.error e => Except.error e
  | Except.ok raw =>
      Except.ok (tabs ++ [{ content := univNewlines raw,
                            file_path := some path,
                            label := basename path }])

/-- `MainWindow._save_to_path` as a function of the outcome of the
underlying `open`/`write` call on the buffer: no `try`/`except`
surrounds it, so the write's outcome is the method's outcome. -/
def save_to_path_result (writeOutcome : List Char → Except String Unit)
    (buffer : List Char) : Except String Unit :=
  writeOutcome buffer

/-- C9: neither open nor save handles errors — each raises exactly when
its underlying file operation fails, and propagates that very error
unchanged; on success neither reports a fault. -/
theorem open_save_error_propagation (readOutcome : Except String (List Char))
    (writeOutcome : List Char → Except String Unit)
    (tabs : List EditorTab) (path buffer : List Char) :
    ((∃ e, open_file_result readOutcome tabs path = Except.error e)
        ↔ (∃ e, readOutcome = Except.error e)) ∧
    (∀ e, readOutcome = Except.error e
        → open_file_result readOutcome tabs path = Except.error e) ∧
    ((∃ e, save_to_path_result writeOutcome buffer = Except.error e)
        ↔ (∃ e, writeOutcome buffer = Except.error e)) ∧
    (∀ e, writeOutcome buffer = Except.error e
        → save_to_path_result writeOutcome buffer = Except.error e) := by
  refine ⟨?_, ?_, Iff.rfl, fun e he => he⟩
  · constructor
    · intro ⟨e, he⟩
      cases readOutcome with
      | error e2 => exact ⟨e2, rfl⟩
      | ok raw => simp [open_file_result] at he
    · intro ⟨e, he⟩
      exact ⟨e, by rw [he]; rfl⟩
  · intro e he
    rw [he]
    rfl

/-- Witness for C9 on a concrete failing read and failing write. -/
theorem open_save_error_propagation_witness :
    open_file_result (Except.error "enoent") [] ['p'] = Except.error "enoent" ∧
    save_to_path_result (fun _ => Except.error "enospc") ['x'] = Except.error "enospc" :=
  ⟨(open_save_error_propagation (Except.error "enoent") (fun _ => Except.error "enospc")
      [] ['p'] ['x']).2.1 "enoent" rfl,
   (open_save_error_propagation (Except.error "enoent") (fun _ => Except.error "enospc")
      [] ['p'] ['x']).2.2.2 "enospc" rfl⟩
